import Mathlib

/-!
# Verification of the `loadenv` package

A shallow embedding of the `loadenv` Go package (env-file loading with
debounced hot reload) together with theorems settling the specification
claims about it.

Modelling conventions:
* Go strings are `List Char` (`Str`); file contents and env values alike.
* Go maps `map[string]string` are association lists with update-in-place
  insertion (`alInsert`), so key sets stay duplicate-free the way Go map
  assignment keeps them.
* The filesystem is a partial map from path to contents; `none` models a
  file that is missing or unreadable (any `os.ReadFile`/`godotenv.Load`
  read error).
* Logging is abstracted away: log lines carry no state, so calls to
  `logger.Printf` are dropped; whether an outcome was merely logged is
  visible in the result constructors instead.
* Time is `Nat` (milliseconds); `time.Duration` values become `Nat`.
* Concurrency is linearised: `sync.Once` callers are a sequence of calls,
  the watch goroutine's `select` loop consumes an explicit input trace,
  and a `time.AfterFunc` callback is a separate schedulable action whose
  armed/stopped status lives in the loop state.
-/

/-- Go strings, viewed as their character sequence. -/
abbrev Str := List Char

/-- Coerce a Lean string literal to the Go-string model. -/
def goStr (s : String) : Str := s.data

/-- Characters in the Latin-1 range that Go `unicode.IsSpace` (and hence
`strings.TrimSpace`) treats as white space: `'\t'`, `'\n'`, `'\v'`, `'\f'`,
`'\r'`, `' '`, U+0085 (NEL) and U+00A0 (NBSP).  Higher Unicode space code
points behave the same way and are irrelevant to every claim; the Latin-1
set is the faithful fragment used here. -/
def goIsSpace (c : Char) : Bool :=
  c = ' ' || c = '\t' || c = '\n' || (c = Char.ofNat 11) || (c = Char.ofNat 12) ||
  c = '\r' || (c = Char.ofNat 133) || (c = Char.ofNat 160)

/-- Left part of `strings.TrimSpace`: drop leading white space. -/
def trimLeft (s : Str) : Str := s.dropWhile goIsSpace

/-- Right part of `strings.TrimSpace`: drop trailing white space. -/
def trimRight (s : Str) : Str := (s.reverse.dropWhile goIsSpace).reverse

/-- `strings.TrimSpace`: drop leading and trailing white space. -/
def trimSpace (s : Str) : Str := trimRight (trimLeft s)

/-- `strings.Split(content, "\n")`: split into lines at every newline.
Like Go, the empty input yields one empty field. -/
def splitLines : Str → List Str
  | [] => [[]]
  | c :: rest =>
    if c = '\n' then [] :: splitLines rest
    else
      match splitLines rest with
      | [] => [[c]]
      | l :: ls => (c :: l) :: ls

/-- `strings.SplitN(line, "=", 2)`, in `Option` form: `some (pre, post)`
when the line contains `'='`, splitting at the first occurrence (so that
`len(parts) == 2` in the Go code corresponds to `isSome`), `none` when the
line has no `'='` (Go returns the single-element slice `[line]`). -/
def splitFirstEq : Str → Option (Str × Str)
  | [] => none
  | c :: rest =>
    if c = '=' then some ([], rest)
    else
      match splitFirstEq rest with
      | some (pre, post) => some (c :: pre, post)
      | none => none

/-- A Go `map[string]string`, as an association list. -/
abbrev EnvMap := List (Str × Str)

/-- Go map read `m[k]`: first (and, for duplicate-free keys, only) binding. -/
def alLookup (k : Str) : EnvMap → Option Str
  | [] => none
  | (k2, v2) :: rest => if k2 = k then some v2 else alLookup k rest

/-- Go map assignment `m[k] = v`: overwrite the existing binding in place,
or append a new one. -/
def alInsert (k v : Str) : EnvMap → EnvMap
  | [] => [(k, v)]
  | (k2, v2) :: rest =>
    if k2 = k then (k2, v) :: rest else (k2, v2) :: alInsert k v rest

/-- The key set of an association list is duplicate-free (true of every
list that models a Go map). -/
abbrev NodupKeys (m : EnvMap) : Prop := (m.map Prod.fst).Nodup

/-- The body of the `for _, line := range lines` loop of `parseEnvFile`:
trim the line; skip it when blank or starting with `#`; otherwise split at
the first `=` and, when a separator exists, store the trimmed key and
trimmed value in the map. -/
def processLine (env : EnvMap) (line : Str) : EnvMap :=
  let l := trimSpace line
  if l = [] then env
  else if l.head? = some '#' then env
  else
    match splitFirstEq l with
    | some (pre, post) => alInsert (trimSpace pre) (trimSpace post) env
    | none => env

/-- `parseEnvFile`: split the content into lines and fold the per-line
processing into an initially empty map. -/
def parseEnvFile (content : Str) : EnvMap :=
  (splitLines content).foldl processLine []

/-! ## The differ (the comparison loops in the reload callback) -/

/-- The classified change reported per key by the reload callback of
`watchEvents`: a new variable, a changed variable (with old value), or a
removed variable. -/
inductive DiffEvent
  | added (key value : Str)
  | changed (key newValue oldValue : Str)
  | removed (key : Str)
  deriving DecidableEq, Repr

/-- The key an event is about. -/
def DiffEvent.key : DiffEvent → Str
  | .added k _ => k
  | .changed k _ _ => k
  | .removed k => k

/-- The `for key, newValue := range newEnv` loop of the reload callback:
a key absent from `oldEnv` is reported as new, a key present with a
different value as changed (with its old value); equal values report
nothing. -/
def diffAddedChanged (oldEnv : EnvMap) : EnvMap → List DiffEvent
  | [] => []
  | (key, newValue) :: rest =>
    match alLookup key oldEnv with
    | none => .added key newValue :: diffAddedChanged oldEnv rest
    | some oldValue =>
      if oldValue = newValue then diffAddedChanged oldEnv rest
      else .changed key newValue oldValue :: diffAddedChanged oldEnv rest

/-- The `for key := range oldEnv` loop of the reload callback: a key
absent from `newEnv` is reported as removed. -/
def diffRemoved (newEnv : EnvMap) : EnvMap → List DiffEvent
  | [] => []
  | (key, _) :: rest =>
    match alLookup key newEnv with
    | some _ => diffRemoved newEnv rest
    | none => .removed key :: diffRemoved newEnv rest

/-- Both comparison loops of the reload callback, in source order. -/
def diffEvents (oldEnv newEnv : EnvMap) : List DiffEvent :=
  diffAddedChanged oldEnv newEnv ++ diffRemoved newEnv oldEnv

/-! ## The loader, the `sync.Once` latch and the close channel -/

/-- The filesystem, as a partial map from path to contents; `none` models
a file that is missing or unreadable. -/
abbrev FS := String → Option Str

/-- The process environment-variable table (`os.Environ` view): unique
keys, with `os.Setenv` overwriting in place, exactly like `alInsert`. -/
abbrev OsEnv := EnvMap

/-- The error taxonomy relevant to initialisation: a failed read of the
env file (surfaced by `godotenv.Load`) or a failed watcher setup
(`watcher.Add` on a missing path). -/
inductive LoadError
  | readError
  | watchInitError
  deriving DecidableEq, Repr

/-- The apply step of `godotenv.Load` (external dependency, modelled from
its documented behaviour): for each parsed pair, call `os.Setenv` only
when the key is absent from the environment snapshot taken before the
loop — `Load` does not override variables that already exist (only
`Overload` does). -/
def godotenvApply (pairs : EnvMap) (env : OsEnv) : OsEnv :=
  pairs.foldl
    (fun e kv => if (alLookup kv.1 env).isSome then e else alInsert kv.1 kv.2 e)
    env

/-- `godotenv.Load(path)` as called by `load()`: read the file (error when
missing or unreadable), parse it (the plain `KEY=VALUE` fragment of the
dotenv format, which is all this repository relies on), and apply the
pairs without overriding existing keys. -/
def godotenvLoad (fs : FS) (path : String) (env : OsEnv) :
    Option LoadError × OsEnv :=
  match fs path with
  | none => (some .readError, env)
  | some content => (none, godotenvApply (parseEnvFile content) env)

/-- The package-level mutable state (the `var` block): the `sync.Once`
latch, the fsnotify watcher allocation, the close channel (`none` = nil,
`some false` = open, `some true` = closed), the configured file path,
and — standing in for the process-wide side effects — the environment
table and a count of physical file loads.  The logger is abstracted
away. -/
structure GState where
  onceDone : Bool
  watcher : Bool
  closeCh : Option Bool
  filePath : String
  osEnv : OsEnv
  loadCount : Nat
  deriving DecidableEq, Repr

/-- The zero value of the package state at process start. -/
def initialState (env : OsEnv) : GState :=
  { onceDone := false, watcher := false, closeCh := none, filePath := "",
    osEnv := env, loadCount := 0 }

/-- `load()`: resolve the configured path (`filepath.Abs` is modelled as
the identity — it fails only when the working directory is invalid), take
the `mu` write lock (calls are already serialised in this linearised
model), log, and call `godotenv.Load`; counts one physical load. -/
def load (fs : FS) (st : GState) : Option LoadError × GState :=
  let r := godotenvLoad fs st.filePath st.osEnv
  (r.1, { st with loadCount := st.loadCount + 1, osEnv := r.2 })

/-- `initWatcher(path)`: allocate the fsnotify watcher (modelled as always
succeeding), resolve the path, `watcher.Add` it (fails when the path does
not exist), then create the close channel. -/
def initWatcher (fs : FS) (path : String) (st : GState) :
    Option LoadError × GState :=
  let st1 := { st with watcher := true }
  match fs path with
  | none => (some LoadError.watchInitError, st1)
  | some _ => (none, { st1 with closeCh := some false })

/-- `Config`: the env-file path (`""` = unset), the hot-reload flag,
whether a custom logger was supplied, and the debounce delay in
milliseconds (`0` = unset). -/
structure Config where
  filePath : String
  hotReload : Bool
  hasLogger : Bool
  reloadDelay : Nat
  deriving DecidableEq, Repr

/-- The closure passed to `once.Do` by `InitEnv`: apply the config
defaults (path `".env"`, delay 2s, stdout logger — the latter two only
feed the goroutine and the abstracted logger), record the file path, load
once, and on success, when hot reload is enabled, set up the watcher
(spawning `watchEvents`, which is modelled separately).  It returns the
`initErr` it assigns. -/
def initEnvBody (cfg : Config) (fs : FS) (st : GState) :
    Option LoadError × GState :=
  let fp := if cfg.filePath = "" then ".env" else cfg.filePath
  let r := load fs { st with filePath := fp }
  match r.1 with
  | some e => (some e, r.2)
  | none =>
    if cfg.hotReload then initWatcher fs fp r.2
    else (none, r.2)

/-- `InitEnv(cfg)`: the local `initErr` starts out nil; `once.Do` marks
the latch and runs the body only when no call has run it before, so every
later call skips the body and returns the still-nil `initErr`. -/
def InitEnv (cfg : Config) (fs : FS) (st : GState) :
    Option LoadError × GState :=
  if st.onceDone then (none, st)
  else initEnvBody cfg fs { st with onceDone := true }

/-- A linearised sequence of `InitEnv` calls, in the order in which
`sync.Once` serialises possibly concurrent callers. -/
def runInits (calls : List (Config × FS)) (st : GState) : GState :=
  calls.foldl (fun s c => (InitEnv c.1 c.2 s).2) st

/-- A Go runtime fault observable from this package. -/
inductive GoFault
  | closeOfClosedChannel
  deriving DecidableEq, Repr

/-- `Close()`: `close(closeCh)` guarded by a nil check.  Closing an open
channel marks it closed; closing an already-closed channel is a runtime
fault (`panic: close of closed channel`); a nil channel is left alone. -/
def Close (st : GState) : Except GoFault GState :=
  match st.closeCh with
  | none => .ok st
  | some false => .ok { st with closeCh := some true }
  | some true => .error .closeOfClosedChannel

/-! ## The watch loop (`watchEvents`) -/

/-- What the timer callback scheduled by `time.AfterFunc` does when it
fires: call `load()` (reading the configured `filePath`); on load failure
only log.  On success, re-read the hard-coded path `".env"`; if that read
fails, only log and return.  Otherwise parse the new snapshot, report the
diff against the captured `oldEnv` baseline, and replace the baseline. -/
inductive ReloadOutcome
  | loadFailed
  | snapshotReadFailed
  | reloaded (events : List DiffEvent)
  deriving DecidableEq, Repr

/-- The reload callback body (the closure given to `time.AfterFunc` in
`watchEvents`), over the filesystem, the global `filePath`, the `oldEnv`
diff baseline and the environment table.  Returns what was logged, the
new baseline and the new environment table. -/
def reloadAction (fs : FS) (fp : String) (oldEnv : EnvMap) (osEnv : OsEnv) :
    ReloadOutcome × EnvMap × OsEnv :=
  match godotenvLoad fs fp osEnv with
  | (some _, env2) => (.loadFailed, oldEnv, env2)
  | (none, env2) =>
    match fs ".env" with
    | none => (.snapshotReadFailed, oldEnv, env2)
    | some content =>
      let newEnv := parseEnvFile content
      (.reloaded (diffEvents oldEnv newEnv), newEnv, env2)

/-- One input to the `select` loop of `watchEvents`: a watcher event
carrying its `fsnotify.Write`/`fsnotify.Create` classification and the
`time.Now()` at which the loop handles it, a watcher error, closure of
either watcher channel, the shutdown signal, or the firing of the armed
settle timer. -/
inductive WatchInput
  | event (write creat : Bool) (now : Nat)
  | errMsg
  | eventsClosed
  | errorsClosed
  | closeSignal
  | timerFire
  deriving DecidableEq, Repr

/-- Inputs on which the `select` loop returns. -/
def isTerminator : WatchInput → Bool
  | .eventsClosed => true
  | .errorsClosed => true
  | .closeSignal => true
  | _ => false

/-- The local state of the `watchEvents` loop: the pending settle timer
(`some d` = armed to fire at time `d`, `none` = nil or stopped), the
`lastEvent` timestamp (`none` = the Go zero time, infinitely far in the
past), the `oldEnv` diff baseline, and — global but mutated by the
callback — the environment table. -/
structure LoopState where
  timer : Option Nat
  lastEvent : Option Nat
  oldEnv : EnvMap
  osEnv : OsEnv
  deriving DecidableEq, Repr

/-- The `case event := <-watcher.Events` branch: drop the event outright
(`continue`) when it arrives less than `delay` after the last accepted
event; otherwise, when it is a Write or Create, stop any pending timer,
arm a fresh settle timer `delay` from now, and record the acceptance
time. -/
def stepEvent (delay : Nat) (st : LoopState) (write creat : Bool)
    (now : Nat) : LoopState :=
  let gapSmall :=
    match st.lastEvent with
    | none => false
    | some t => now - t < delay
  if gapSmall then st
  else if write || creat then
    { st with timer := some (now + delay), lastEvent := some now }
  else st

/-- Firing of the armed settle timer: run the reload callback and disarm.
With no armed timer there is nothing to fire. -/
def fireTimer (fs : FS) (fp : String) (st : LoopState) : LoopState :=
  match st.timer with
  | none => st
  | some _ =>
    let r := reloadAction fs fp st.oldEnv st.osEnv
    { st with timer := none, oldEnv := r.2.1, osEnv := r.2.2 }

/-- Result of running the loop on an input trace: the loop state, whether
the loop returned, and whether the deferred `watcher.Close()` has run
(exactly when the loop returned). -/
structure RunResult where
  state : LoopState
  terminated : Bool
  watcherClosed : Bool
  deriving DecidableEq, Repr

/-- The `for`/`select` loop of `watchEvents` over an input trace: events
go through the debounce handling, watcher errors are logged and ignored,
timer firings run the reload callback, and a shutdown signal or a closed
watcher channel makes the loop return (running the deferred
`watcher.Close()`).  An exhausted trace leaves the loop blocked in
`select`. -/
def runWatch (fs : FS) (fp : String) (delay : Nat) (st : LoopState) :
    List WatchInput → RunResult
  | [] => ⟨st, false, false⟩
  | .event w c now :: rest => runWatch fs fp delay (stepEvent delay st w c now) rest
  | .errMsg :: rest => runWatch fs fp delay st rest
  | .timerFire :: rest => runWatch fs fp delay (fireTimer fs fp st) rest
  | .eventsClosed :: _ => ⟨st, true, true⟩
  | .errorsClosed :: _ => ⟨st, true, true⟩
  | .closeSignal :: _ => ⟨st, true, true⟩

/-- The loop state at the top of `watchEvents`: no timer, zero
`lastEvent`, and the diff baseline parsed from the initial read. -/
def initLoopState (base : EnvMap) (env : OsEnv) : LoopState :=
  { timer := none, lastEvent := none, oldEnv := base, osEnv := env }

/-- `watchEvents(delay)`: before the loop, read the hard-coded relative
path `".env"` (not the configured `filePath`, which only feeds the
callback's `load()`); when that read fails, log and return immediately
(`none`; the deferred `watcher.Close()` still runs and no input is ever
processed).  Otherwise parse the baseline and run the loop. -/
def watchEvents (fs : FS) (fp : String) (delay : Nat) (env : OsEnv)
    (inputs : List WatchInput) : Option RunResult :=
  match fs ".env" with
  | none => none
  | some content => some (runWatch fs fp delay (initLoopState (parseEnvFile content) env) inputs)

/-! ## Concrete fixtures used by counterexamples and witnesses -/

/-- The empty filesystem: every read fails. -/
def fsEmpty : FS := fun _ => none

/-- A filesystem whose only file is `.env` with content `A=new`. -/
def fsANew : FS := fun p => if p = ".env" then some (goStr "A=new") else none

/-- A filesystem whose only file is `conf` (no `.env` at all). -/
def fsOther : FS := fun p => if p = "conf" then some (goStr "A=1") else none

/-- A configuration with hot reload off. -/
def cfgPlain : Config :=
  { filePath := ".env", hotReload := false, hasLogger := true, reloadDelay := 1000 }

/-- A configuration with hot reload on. -/
def cfgHot : Config :=
  { filePath := ".env", hotReload := true, hasLogger := true, reloadDelay := 1000 }

/-! ## Helper lemmas about the string primitives -/

lemma mem_of_mem_dropWhile {a : Char} {p : Char → Bool} :
    ∀ {l : Str}, a ∈ l.dropWhile p → a ∈ l := by
  intro l
  induction l with
  | nil => simp [List.dropWhile]
  | cons c rest ih =>
    simp only [List.dropWhile]
    by_cases hc : p c
    · simp only [hc]
      intro h
      exact List.mem_cons_of_mem c (ih h)
    · simp [hc]

lemma mem_of_mem_trimSpace {a : Char} {l : Str} (h : a ∈ trimSpace l) : a ∈ l := by
  unfold trimSpace trimRight trimLeft at h
  rw [List.mem_reverse] at h
  have h2 := mem_of_mem_dropWhile h
  rw [List.mem_reverse] at h2
  exact mem_of_mem_dropWhile h2

lemma splitFirstEq_none_iff {l : Str} : splitFirstEq l = none ↔ '=' ∉ l := by
  induction l with
  | nil => simp [splitFirstEq]
  | cons c rest ih =>
    by_cases hc : c = '='
    · subst hc; simp [splitFirstEq]
    · have hec : ¬('=' = c) := fun h => hc h.symm
      cases hp : splitFirstEq rest with
      | none =>
        have hrest : '=' ∉ rest := ih.mp hp
        simp [splitFirstEq, hc, hp, hec, hrest]
      | some pr =>
        obtain ⟨pre, post⟩ := pr
        have hrest : '=' ∈ rest := by
          by_contra hn
          rw [ih.mpr hn] at hp
          exact Option.noConfusion hp
        simp [splitFirstEq, hc, hp, hrest]

lemma splitFirstEq_some {l pre post : Str} (h : splitFirstEq l = some (pre, post)) :
    l = pre ++ '=' :: post ∧ '=' ∉ pre := by
  induction l generalizing pre post with
  | nil => simp [splitFirstEq] at h
  | cons c rest ih =>
    by_cases hc : c = '='
    · subst hc
      have h2 : some (([] : Str), rest) = some (pre, post) := by
        rw [← h]; simp [splitFirstEq]
      have hinj := Option.some.inj h2
      have hpre : ([] : Str) = pre := congrArg Prod.fst hinj
      have hpost : rest = post := congrArg Prod.snd hinj
      subst hpre; subst hpost
      simp
    · cases hp : splitFirstEq rest with
      | none =>
        simp [splitFirstEq, hc, hp] at h
      | some pr =>
        obtain ⟨pre2, post2⟩ := pr
        have h2 : some (c :: pre2, post2) = some (pre, post) := by
          rw [← h]; simp [splitFirstEq, hc, hp]
        have hinj := Option.some.inj h2
        have hpre : c :: pre2 = pre := congrArg Prod.fst hinj
        have hpost : post2 = post := congrArg Prod.snd hinj
        subst hpre; subst hpost
        obtain ⟨he, hne⟩ := ih hp
        refine ⟨by rw [he]; rfl, ?_⟩
        simp only [List.mem_cons, not_or]
        exact ⟨fun hx => hc hx.symm, hne⟩

/-- C8: blank lines, `#`-prefixed lines and lines without `=` contribute no
entry; every entry produced comes from a line containing `=`, split at the
first `=` (within the trimmed line), with key and value trimmed. -/
theorem parser_line_filtering :
    (∀ env line, trimSpace line = [] → processLine env line = env) ∧
    (∀ env line, (trimSpace line).head? = some '#' → processLine env line = env) ∧
    (∀ env line, '=' ∉ line → processLine env line = env) ∧
    (∀ env line, processLine env line ≠ env →
      '=' ∈ line ∧ ∃ pre post, trimSpace line = pre ++ '=' :: post ∧ '=' ∉ pre ∧
        processLine env line = alInsert (trimSpace pre) (trimSpace post) env) := by
  refine ⟨?_, ?_, ?_, ?_⟩
  · intro env line h
    simp [processLine, h]
  · intro env line h
    unfold processLine
    have hne : trimSpace line ≠ [] := by
      intro hx; rw [hx] at h; simp at h
    simp [hne, h]
  · intro env line h
    unfold processLine
    have hnt : '=' ∉ trimSpace line := fun hx => h (mem_of_mem_trimSpace hx)
    have hsp : splitFirstEq (trimSpace line) = none := splitFirstEq_none_iff.mpr hnt
    simp [hsp]
  · intro env line h
    unfold processLine at h
    by_cases hb : trimSpace line = []
    · simp [hb] at h
    · by_cases hh : (trimSpace line).head? = some '#'
      · simp [hb, hh] at h
      · cases hsp : splitFirstEq (trimSpace line) with
        | none => simp [hb, hh, hsp] at h
        | some pr =>
          obtain ⟨pre, post⟩ := pr
          obtain ⟨he, hne⟩ := splitFirstEq_some hsp
          refine ⟨mem_of_mem_trimSpace (by rw [he]; simp), pre, post, he, hne, ?_⟩
          simp [processLine, hb, hh, hsp]

/-- Witness for `parser_line_filtering` at concrete lines. -/
theorem parser_line_filtering_witness :
    processLine [] (goStr "   ") = [] ∧
    processLine [] (goStr " # comment") = [] ∧
    processLine [] (goStr "no separator") = [] := by
  refine ⟨?_, ?_, ?_⟩
  · exact parser_line_filtering.1 [] (goStr "   ") (by decide)
  · exact parser_line_filtering.2.1 [] (goStr " # comment") (by decide)
  · exact parser_line_filtering.2.2.1 [] (goStr "no separator") (by decide)

/-! ## Association-list lemmas -/

lemma alLookup_mem {k v : Str} {m : EnvMap} (h : alLookup k m = some v) :
    (k, v) ∈ m := by
  induction m with
  | nil => simp [alLookup] at h
  | cons kv rest ih =>
    obtain ⟨k2, v2⟩ := kv
    simp only [alLookup] at h
    by_cases hk : k2 = k
    · rw [if_pos hk] at h
      have hv := Option.some.inj h
      rw [← hk, ← hv]
      exact List.mem_cons_self _ _
    · rw [if_neg hk] at h
      exact List.mem_cons_of_mem _ (ih h)

lemma alLookup_isSome_of_mem {k v : Str} {m : EnvMap} (h : (k, v) ∈ m) :
    (alLookup k m).isSome := by
  induction m with
  | nil => simp at h
  | cons kv rest ih =>
    obtain ⟨k2, v2⟩ := kv
    simp only [alLookup]
    by_cases hk : k2 = k
    · rw [if_pos hk]; rfl
    · rw [if_neg hk]
      rcases List.mem_cons.mp h with heq | hmem
      · exact absurd (congrArg Prod.fst heq).symm hk
      · exact ih hmem

lemma alLookup_cons_isSome {k k2 v2 : Str} {rest : EnvMap}
    (h : (alLookup k rest).isSome) : (alLookup k ((k2, v2) :: rest)).isSome := by
  simp only [alLookup]
  by_cases hk : k2 = k
  · rw [if_pos hk]; rfl
  · rw [if_neg hk]; exact h

lemma mem_alLookup_of_nodup {k v : Str} {m : EnvMap} (hm : NodupKeys m)
    (h : (k, v) ∈ m) : alLookup k m = some v := by
  induction m with
  | nil => simp at h
  | cons kv rest ih =>
    obtain ⟨k2, v2⟩ := kv
    have hm2 : k2 ∉ rest.map Prod.fst ∧ NodupKeys rest := by
      simpa [NodupKeys, List.nodup_cons] using hm
    rcases List.mem_cons.mp h with heq | hmem
    · have hk : k = k2 := congrArg Prod.fst heq
      have hv : v = v2 := congrArg Prod.snd heq
      subst hk; subst hv
      simp [alLookup]
    · have hk2 : k2 ≠ k := by
        intro he
        apply hm2.1
        rw [he]
        exact List.mem_map.mpr ⟨(k, v), hmem, rfl⟩
      simp only [alLookup]
      rw [if_neg hk2]
      exact ih hm2.2 hmem

/-! ## Differ membership lemmas -/

lemma mem_diffAddedChanged {oldEnv : EnvMap} {e : DiffEvent} {newEnv : EnvMap}
    (h : e ∈ diffAddedChanged oldEnv newEnv) :
    (∃ k v, e = .added k v ∧ (k, v) ∈ newEnv ∧ alLookup k oldEnv = none) ∨
    (∃ k nv ov, e = .changed k nv ov ∧ (k, nv) ∈ newEnv ∧
      alLookup k oldEnv = some ov ∧ ov ≠ nv) := by
  induction newEnv with
  | nil => simp [diffAddedChanged] at h
  | cons kv rest ih =>
    obtain ⟨k2, v2⟩ := kv
    simp only [diffAddedChanged] at h
    cases ho : alLookup k2 oldEnv with
    | none =>
      rw [ho] at h
      rcases List.mem_cons.mp h with heq | hmem
      · exact Or.inl ⟨k2, v2, heq, List.mem_cons_self _ _, ho⟩
      · rcases ih hmem with ⟨k, v, he, hm, hl⟩ | ⟨k, nv, ov, he, hm, hl, hne⟩
        · exact Or.inl ⟨k, v, he, List.mem_cons_of_mem _ hm, hl⟩
        · exact Or.inr ⟨k, nv, ov, he, List.mem_cons_of_mem _ hm, hl, hne⟩
    | some ov2 =>
      simp only [ho] at h
      by_cases hv : ov2 = v2
      · rw [if_pos hv] at h
        rcases ih h with ⟨k, v, he, hm, hl⟩ | ⟨k, nv, ov, he, hm, hl, hne⟩
        · exact Or.inl ⟨k, v, he, List.mem_cons_of_mem _ hm, hl⟩
        · exact Or.inr ⟨k, nv, ov, he, List.mem_cons_of_mem _ hm, hl, hne⟩
      · rw [if_neg hv] at h
        rcases List.mem_cons.mp h with heq | hmem
        · exact Or.inr ⟨k2, v2, ov2, heq, List.mem_cons_self _ _, ho, hv⟩
        · rcases ih hmem with ⟨k, v, he, hm, hl⟩ | ⟨k, nv, ov, he, hm, hl, hne⟩
          · exact Or.inl ⟨k, v, he, List.mem_cons_of_mem _ hm, hl⟩
          · exact Or.inr ⟨k, nv, ov, he, List.mem_cons_of_mem _ hm, hl, hne⟩

lemma added_mem_diffAddedChanged {oldEnv newEnv : EnvMap} {k v : Str}
    (hnew : alLookup k newEnv = some v) (hold : alLookup k oldEnv = none) :
    DiffEvent.added k v ∈ diffAddedChanged oldEnv newEnv := by
  induction newEnv with
  | nil => simp [alLookup] at hnew
  | cons kv rest ih =>
    obtain ⟨k2, v2⟩ := kv
    simp only [alLookup] at hnew
    by_cases hk : k2 = k
    · rw [if_pos hk] at hnew
      have hv : v2 = v := Option.some.inj hnew
      subst hv
      subst hk
      simp [diffAddedChanged, hold]
    · rw [if_neg hk] at hnew
      have hmem := ih hnew
      simp only [diffAddedChanged]
      cases ho : alLookup k2 oldEnv with
      | none =>
        simp only [ho]
        exact List.mem_cons_of_mem _ hmem
      | some ov2 =>
        simp only [ho]
        by_cases hv : ov2 = v2
        · rw [if_pos hv]; exact hmem
        · rw [if_neg hv]; exact List.mem_cons_of_mem _ hmem

lemma changed_mem_diffAddedChanged {oldEnv newEnv : EnvMap} {k nv ov : Str}
    (hnew : alLookup k newEnv = some nv) (hold : alLookup k oldEnv = some ov)
    (hne : ov ≠ nv) :
    DiffEvent.changed k nv ov ∈ diffAddedChanged oldEnv newEnv := by
  induction newEnv with
  | nil => simp [alLookup] at hnew
  | cons kv rest ih =>
    obtain ⟨k2, v2⟩ := kv
    simp only [alLookup] at hnew
    by_cases hk : k2 = k
    · rw [if_pos hk] at hnew
      have hv : v2 = nv := Option.some.inj hnew
      subst hv
      subst hk
      simp [diffAddedChanged, hold, if_neg hne]
    · rw [if_neg hk] at hnew
      have hmem := ih hnew
      simp only [diffAddedChanged]
      cases ho : alLookup k2 oldEnv with
      | none =>
        simp only [ho]
        exact List.mem_cons_of_mem _ hmem
      | some ov2 =>
        simp only [ho]
        by_cases hv : ov2 = v2
        · rw [if_pos hv]; exact hmem
        · rw [if_neg hv]; exact List.mem_cons_of_mem _ hmem

lemma mem_diffRemoved {newEnv : EnvMap} {e : DiffEvent} {m : EnvMap}
    (h : e ∈ diffRemoved newEnv m) :
    ∃ k, e = .removed k ∧ (alLookup k m).isSome ∧ alLookup k newEnv = none := by
  induction m with
  | nil => simp [diffRemoved] at h
  | cons kv rest ih =>
    obtain ⟨k2, v2⟩ := kv
    simp only [diffRemoved] at h
    cases hn : alLookup k2 newEnv with
    | some v =>
      rw [hn] at h
      obtain ⟨k, he, hs, hnone⟩ := ih h
      exact ⟨k, he, alLookup_cons_isSome hs, hnone⟩
    | none =>
      rw [hn] at h
      rcases List.mem_cons.mp h with heq | hmem
      · refine ⟨k2, heq, ?_, hn⟩
        simp [alLookup]
      · obtain ⟨k, he, hs, hnone⟩ := ih hmem
        exact ⟨k, he, alLookup_cons_isSome hs, hnone⟩

lemma removed_mem_diffRemoved {newEnv m : EnvMap} {k : Str}
    (hm : (alLookup k m).isSome) (hn : alLookup k newEnv = none) :
    DiffEvent.removed k ∈ diffRemoved newEnv m := by
  induction m with
  | nil => simp [alLookup] at hm
  | cons kv rest ih =>
    obtain ⟨k2, v2⟩ := kv
    simp only [alLookup] at hm
    by_cases hk : k2 = k
    · subst hk
      simp [diffRemoved, hn]
    · rw [if_neg hk] at hm
      have hmem := ih hm
      simp only [diffRemoved]
      cases hn2 : alLookup k2 newEnv with
      | some v => exact hmem
      | none => exact List.mem_cons_of_mem _ hmem

/-- C5: the diff loops of the reload callback emit `added` exactly for keys
present in the new snapshot but absent from the old one, `changed` (with
both values) exactly for keys present in both with differing values,
`removed` exactly for keys present in the old snapshot but absent from the
new one, and nothing for keys with unchanged values; and on the spec's
example the result is exactly changed-B plus added-C with no event for A. -/
theorem differ_correct :
    (∀ oldEnv newEnv : EnvMap, NodupKeys oldEnv → NodupKeys newEnv →
      (∀ k v, DiffEvent.added k v ∈ diffEvents oldEnv newEnv ↔
          alLookup k oldEnv = none ∧ alLookup k newEnv = some v) ∧
      (∀ k nv ov, DiffEvent.changed k nv ov ∈ diffEvents oldEnv newEnv ↔
          alLookup k oldEnv = some ov ∧ alLookup k newEnv = some nv ∧ ov ≠ nv) ∧
      (∀ k, DiffEvent.removed k ∈ diffEvents oldEnv newEnv ↔
          (alLookup k oldEnv).isSome ∧ alLookup k newEnv = none) ∧
      (∀ k v, alLookup k oldEnv = some v → alLookup k newEnv = some v →
          ∀ e ∈ diffEvents oldEnv newEnv, e.key ≠ k)) ∧
    diffEvents [(goStr "A", goStr "1"), (goStr "B", goStr "2")]
        [(goStr "A", goStr "1"), (goStr "B", goStr "3"), (goStr "C", goStr "4")] =
      [DiffEvent.changed (goStr "B") (goStr "3") (goStr "2"),
       DiffEvent.added (goStr "C") (goStr "4")] := by
  constructor
  · intro oldEnv newEnv hold hnew
    refine ⟨?_, ?_, ?_, ?_⟩
    · intro k v
      constructor
      · intro h
        rcases List.mem_append.mp h with h1 | h2
        · rcases mem_diffAddedChanged h1 with ⟨k1, v1, he, hm, hl⟩ |
            ⟨k1, nv, ov, he, hm, hl, hne⟩
          · injection he with hk hv
            subst hk; subst hv
            exact ⟨hl, mem_alLookup_of_nodup hnew hm⟩
          · exact DiffEvent.noConfusion he
        · obtain ⟨k1, he, hs, hn⟩ := mem_diffRemoved h2
          exact DiffEvent.noConfusion he
      · rintro ⟨hl, hn⟩
        exact List.mem_append_left _ (added_mem_diffAddedChanged hn hl)
    · intro k nv ov
      constructor
      · intro h
        rcases List.mem_append.mp h with h1 | h2
        · rcases mem_diffAddedChanged h1 with ⟨k1, v1, he, hm, hl⟩ |
            ⟨k1, nv1, ov1, he, hm, hl, hne⟩
          · exact DiffEvent.noConfusion he
          · injection he with hk hnv hov
            subst hk; subst hnv; subst hov
            exact ⟨hl, mem_alLookup_of_nodup hnew hm, hne⟩
        · obtain ⟨k1, he, hs, hn⟩ := mem_diffRemoved h2
          exact DiffEvent.noConfusion he
      · rintro ⟨hl, hn, hne⟩
        exact List.mem_append_left _ (changed_mem_diffAddedChanged hn hl hne)
    · intro k
      constructor
      · intro h
        rcases List.mem_append.mp h with h1 | h2
        · rcases mem_diffAddedChanged h1 with ⟨k1, v1, he, hm, hl⟩ |
            ⟨k1, nv1, ov1, he, hm, hl, hne⟩
          · exact DiffEvent.noConfusion he
          · exact DiffEvent.noConfusion he
        · obtain ⟨k1, he, hs, hn⟩ := mem_diffRemoved h2
          injection he with hk
          subst hk
          exact ⟨hs, hn⟩
      · rintro ⟨hs, hn⟩
        exact List.mem_append_right _ (removed_mem_diffRemoved hs hn)
    · intro k v hvo hvn e he hkeq
      rcases List.mem_append.mp he with h1 | h2
      · rcases mem_diffAddedChanged h1 with ⟨k1, v1, heq, hm, hl⟩ |
          ⟨k1, nv1, ov1, heq, hm, hl, hne⟩
        · subst heq
          simp only [DiffEvent.key] at hkeq
          subst hkeq
          rw [hvo] at hl
          exact Option.noConfusion hl
        · subst heq
          simp only [DiffEvent.key] at hkeq
          subst hkeq
          have hov : ov1 = v := by
            rw [hl] at hvo
            exact Option.some.inj hvo
          have hnv : nv1 = v := by
            have h3 := mem_alLookup_of_nodup hnew hm
            rw [h3] at hvn
            exact Option.some.inj hvn
          exact hne (hov.trans hnv.symm)
      · obtain ⟨k1, heq, hs, hn⟩ := mem_diffRemoved h2
        subst heq
        simp only [DiffEvent.key] at hkeq
        subst hkeq
        rw [hvn] at hn
        exact Option.noConfusion hn
  · decide

/-- Witness for `differ_correct` at the spec's concrete snapshots. -/
theorem differ_correct_witness :
    DiffEvent.added (goStr "C") (goStr "4") ∈
      diffEvents [(goStr "A", goStr "1"), (goStr "B", goStr "2")]
        [(goStr "A", goStr "1"), (goStr "B", goStr "3"), (goStr "C", goStr "4")] :=
  ((differ_correct.1 [(goStr "A", goStr "1"), (goStr "B", goStr "2")]
      [(goStr "A", goStr "1"), (goStr "B", goStr "3"), (goStr "C", goStr "4")]
      (by decide) (by decide)).1 (goStr "C") (goStr "4")).mpr (by decide)

/-! ## Initialisation: `sync.Once` semantics -/

lemma initWatcher_fields (fs : FS) (path : String) (st : GState) :
    (initWatcher fs path st).2.onceDone = st.onceDone ∧
    (initWatcher fs path st).2.loadCount = st.loadCount := by
  unfold initWatcher
  cases fs path <;> simp

lemma initEnvBody_state (cfg : Config) (fs : FS) (st : GState) :
    (initEnvBody cfg fs st).2.onceDone = st.onceDone ∧
    (initEnvBody cfg fs st).2.loadCount = st.loadCount + 1 := by
  simp only [initEnvBody]
  split
  · exact ⟨rfl, rfl⟩
  · split
    · constructor
      · exact (initWatcher_fields _ _ _).1.trans rfl
      · exact (initWatcher_fields _ _ _).2.trans rfl
    · exact ⟨rfl, rfl⟩

lemma initEnv_noop {cfg : Config} {fs : FS} {st : GState}
    (h : st.onceDone = true) : InitEnv cfg fs st = (none, st) := by
  simp [InitEnv, h]

lemma runInits_noop {st : GState} (h : st.onceDone = true) :
    ∀ calls, runInits calls st = st := by
  intro calls
  induction calls with
  | nil => rfl
  | cons c rest ih =>
    show runInits rest (InitEnv c.1 c.2 st).2 = st
    rw [initEnv_noop h]
    exact ih

/-- C1 counterexample: with a missing env file, the first `InitEnv` call
returns the read error, but the second call returns nil instead of the
first call's error — `initErr` is a fresh local on every call and the
skipped `once.Do` body never assigns it. -/
theorem initEnv_second_call_drops_error :
    (InitEnv cfgPlain fsEmpty (initialState [])).1 = some LoadError.readError ∧
    (InitEnv cfgPlain fsEmpty (InitEnv cfgPlain fsEmpty (initialState [])).2).1 =
      none := by
  exact ⟨rfl, rfl⟩

/-- C1 (amended): initialisation is exactly-once in execution but not in
reported result: after a first `InitEnv` call has run, every later call
is a state-preserving no-op that returns nil (not the first call's
result), and exactly one physical load occurs across any sequence of
calls. -/
theorem initEnv_exactly_once :
    (∀ cfg fs st, st.onceDone = true → InitEnv cfg fs st = (none, st)) ∧
    (∀ cfg fs st, (InitEnv cfg fs st).2.onceDone = true) ∧
    (∀ cfg fs env calls,
      (runInits calls (InitEnv cfg fs (initialState env)).2).loadCount = 1) := by
  refine ⟨fun cfg fs st h => initEnv_noop h, ?_, ?_⟩
  · intro cfg fs st
    by_cases h : st.onceDone = true
    · rw [initEnv_noop h]; exact h
    · have h2 : st.onceDone = false := by simpa using h
      have he : InitEnv cfg fs st = initEnvBody cfg fs { st with onceDone := true } := by
        simp [InitEnv, h2]
      rw [he]
      exact (initEnvBody_state cfg fs _).1
  · intro cfg fs env calls
    have he : InitEnv cfg fs (initialState env) =
        initEnvBody cfg fs { initialState env with onceDone := true } := by
      simp [InitEnv, initialState]
    have hdone : (InitEnv cfg fs (initialState env)).2.onceDone = true := by
      rw [he]
      exact (initEnvBody_state cfg fs _).1
    rw [runInits_noop hdone calls, he]
    exact (initEnvBody_state cfg fs _).2

/-- Witness for `initEnv_exactly_once`: a second call on an initialised
state is a nil-returning no-op, and a two-call sequence loads once. -/
theorem initEnv_exactly_once_witness :
    InitEnv cfgPlain fsEmpty { initialState [] with onceDone := true } =
      (none, { initialState [] with onceDone := true }) ∧
    (runInits [(cfgPlain, fsEmpty)]
      (InitEnv cfgPlain fsEmpty (initialState [])).2).loadCount = 1 :=
  ⟨initEnv_exactly_once.1 cfgPlain fsEmpty _ rfl,
   initEnv_exactly_once.2.2 cfgPlain fsEmpty [] [(cfgPlain, fsEmpty)]⟩

/-! ## Shutdown -/

/-- C2: the code violates idempotent shutdown.  After a successful
hot-reload initialisation, the first `Close` closes the channel, and a
second `Close` runs `close` on the already-closed channel — the Go
runtime fault `panic: close of closed channel`.  The nil guard does not
help because `closeCh` is never reset. -/
theorem close_twice_faults :
    (InitEnv cfgHot fsANew (initialState [])).1 = none ∧
    Close (InitEnv cfgHot fsANew (initialState [])).2 =
      .ok { (InitEnv cfgHot fsANew (initialState [])).2 with closeCh := some true } ∧
    Close { (InitEnv cfgHot fsANew (initialState [])).2 with closeCh := some true } =
      .error .closeOfClosedChannel := by
  exact ⟨rfl, rfl, rfl⟩

/-- C10: calling `Close` before initialisation has created the close
channel is a total no-op: the nil guard returns without fault and without
changing any state; the process-start state indeed has a nil channel. -/
theorem close_nil_noop :
    (∀ env, (initialState env).closeCh = none) ∧
    (∀ st : GState, st.closeCh = none → Close st = .ok st) := by
  refine ⟨fun env => rfl, ?_⟩
  intro st h
  unfold Close
  rw [h]

/-- Witness for `close_nil_noop` at the process-start state. -/
theorem close_nil_noop_witness :
    Close (initialState []) = .ok (initialState []) :=
  close_nil_noop.2 (initialState []) rfl

/-! ## The apply step of `godotenv.Load` -/

lemma alLookup_alInsert_self (k v : Str) (m : EnvMap) :
    alLookup k (alInsert k v m) = some v := by
  induction m with
  | nil => simp [alInsert, alLookup]
  | cons kv rest ih =>
    obtain ⟨k2, v2⟩ := kv
    simp only [alInsert]
    by_cases hk : k2 = k
    · rw [if_pos hk]
      simp [alLookup, hk]
    · rw [if_neg hk]
      simp only [alLookup]
      rw [if_neg hk]
      exact ih

lemma alLookup_alInsert_ne {k k0 : Str} (h : k0 ≠ k) (v : Str) (m : EnvMap) :
    alLookup k (alInsert k0 v m) = alLookup k m := by
  induction m with
  | nil => simp [alInsert, alLookup, h]
  | cons kv rest ih =>
    obtain ⟨k2, v2⟩ := kv
    simp only [alInsert]
    by_cases hk : k2 = k0
    · subst hk
      simp [alLookup, h]
    · rw [if_neg hk]
      simp only [alLookup]
      by_cases hk2 : k2 = k <;> simp [hk2, ih]

lemma apply_fold_preserves {env : OsEnv} {k v : Str}
    (hk : alLookup k env = some v) (pairs : EnvMap) :
    ∀ e : OsEnv, alLookup k e = some v →
      alLookup k (pairs.foldl
        (fun e2 kv => if (alLookup kv.1 env).isSome then e2
          else alInsert kv.1 kv.2 e2) e) = some v := by
  induction pairs with
  | nil => intro e he; simpa using he
  | cons kv rest ih =>
    intro e he
    obtain ⟨k0, v0⟩ := kv
    simp only [List.foldl]
    by_cases h0 : (alLookup k0 env).isSome
    · rw [if_pos h0]
      exact ih _ he
    · rw [if_neg h0]
      apply ih
      by_cases hkk : k0 = k
      · exfalso
        rw [hkk, hk] at h0
        simp at h0
      · rw [alLookup_alInsert_ne hkk]
        exact he

lemma apply_fold_untouched {env : OsEnv} {k : Str} :
    ∀ (pairs : EnvMap) (e : OsEnv), k ∉ pairs.map Prod.fst →
      alLookup k (pairs.foldl
        (fun e2 kv => if (alLookup kv.1 env).isSome then e2
          else alInsert kv.1 kv.2 e2) e) = alLookup k e := by
  intro pairs
  induction pairs with
  | nil => intro e _; rfl
  | cons kv rest ih =>
    intro e hnot
    obtain ⟨k0, v0⟩ := kv
    simp only [List.map_cons, List.mem_cons, not_or] at hnot
    obtain ⟨h1, h2⟩ := hnot
    simp only [List.foldl]
    by_cases h0 : (alLookup k0 env).isSome
    · rw [if_pos h0]
      exact ih _ h2
    · rw [if_neg h0]
      rw [ih _ h2]
      exact alLookup_alInsert_ne (fun hx => h1 hx.symm) v0 e

lemma apply_fold_sets_absent {env : OsEnv} {k v : Str}
    (hk : alLookup k env = none) :
    ∀ pairs : EnvMap, NodupKeys pairs → alLookup k pairs = some v →
      ∀ e : OsEnv, alLookup k (pairs.foldl
        (fun e2 kv => if (alLookup kv.1 env).isSome then e2
          else alInsert kv.1 kv.2 e2) e) = some v := by
  intro pairs
  induction pairs with
  | nil => intro _ hl; simp [alLookup] at hl
  | cons kv rest ih =>
    intro hnd hl e
    obtain ⟨k0, v0⟩ := kv
    simp only [alLookup] at hl
    have hnd2 : k0 ∉ rest.map Prod.fst ∧ NodupKeys rest := by
      simpa [NodupKeys, List.nodup_cons] using hnd
    simp only [List.foldl]
    by_cases hkk : k0 = k
    · rw [if_pos hkk] at hl
      have hv : v0 = v := Option.some.inj hl
      have h0 : ¬ (alLookup k0 env).isSome = true := by
        rw [hkk, hk]; simp
      rw [if_neg h0]
      have hnotk : k ∉ rest.map Prod.fst := by rw [← hkk]; exact hnd2.1
      rw [apply_fold_untouched rest (alInsert k0 v0 e) hnotk]
      rw [hkk, alLookup_alInsert_self, hv]
    · rw [if_neg hkk] at hl
      exact ih hnd2.2 hl _

/-- C3 counterexample: with `A=old` already in the environment, a
successful `load()` of a file binding `A=new` leaves `A` bound to `old`:
the overwrite the claim describes does not happen. -/
theorem load_does_not_overwrite_cex :
    (load fsANew
      { initialState [(goStr "A", goStr "old")] with filePath := ".env" }).1 =
        none ∧
    alLookup (goStr "A")
      ((load fsANew
        { initialState [(goStr "A", goStr "old")] with filePath := ".env" }).2.osEnv) =
      some (goStr "old") ∧
    goStr "old" ≠ goStr "new" := by
  refine ⟨rfl, rfl, by decide⟩

/-- C3 (amended): on a successful load or reload the parsed pairs are
applied without overwriting: a key that already had a value in the
environment keeps that pre-existing value, and a parsed key absent from
the environment is set to its parsed value. -/
theorem load_applies_without_overwrite :
    (∀ (pairs : EnvMap) (env : OsEnv) (k v : Str), alLookup k env = some v →
        alLookup k (godotenvApply pairs env) = some v) ∧
    (∀ (pairs : EnvMap) (env : OsEnv) (k v : Str), alLookup k env = none →
        NodupKeys pairs → alLookup k pairs = some v →
        alLookup k (godotenvApply pairs env) = some v) := by
  constructor
  · intro pairs env k v hk
    exact apply_fold_preserves hk pairs env hk
  · intro pairs env k v hk hnd hl
    exact apply_fold_sets_absent hk pairs hnd hl env

/-- Witness for `load_applies_without_overwrite` at concrete data. -/
theorem load_applies_without_overwrite_witness :
    alLookup (goStr "A")
      (godotenvApply [(goStr "A", goStr "new")] [(goStr "A", goStr "old")]) =
      some (goStr "old") ∧
    alLookup (goStr "B")
      (godotenvApply [(goStr "B", goStr "1")] [(goStr "A", goStr "old")]) =
      some (goStr "1") :=
  ⟨load_applies_without_overwrite.1 [(goStr "A", goStr "new")]
      [(goStr "A", goStr "old")] (goStr "A") (goStr "old") (by decide),
   load_applies_without_overwrite.2 [(goStr "B", goStr "1")]
      [(goStr "A", goStr "old")] (goStr "B") (goStr "1") (by decide) (by decide)
      (by decide)⟩

/-! ## The debounce gap filter -/

/-- C7: the gap filter drops any event arriving strictly less than
`delay` after the previously accepted event — leaving the settle timer,
`lastEvent` and the rest of the state completely untouched — while a
Write- or Create-classified event arriving at least `delay` after the
previously accepted event is accepted: `lastEvent` moves to now and the
settle timer is (re)armed to fire `delay` from now. -/
theorem gap_filter (delay : Nat) (st : LoopState) (w c : Bool) (now t : Nat)
    (hlast : st.lastEvent = some t) :
    (now - t < delay → stepEvent delay st w c now = st) ∧
    (t ≤ now → delay ≤ now - t → (w || c) = true →
      stepEvent delay st w c now =
        { st with timer := some (now + delay), lastEvent := some now }) := by
  constructor
  · intro hgap
    unfold stepEvent
    rw [hlast]
    simp [hgap]
  · intro _ hgap hwc
    unfold stepEvent
    rw [hlast]
    have hnot : ¬ (now - t < delay) := not_lt.mpr hgap
    simp [hnot, hwc]

/-- Witness for `gap_filter`: with `delay = 2` and the last acceptance at
`t = 10`, a write at 11 is dropped and a write at 13 is accepted. -/
theorem gap_filter_witness :
    stepEvent 2 { timer := none, lastEvent := some 10, oldEnv := [], osEnv := [] }
        true false 11 =
      { timer := none, lastEvent := some 10, oldEnv := [], osEnv := [] } ∧
    stepEvent 2 { timer := none, lastEvent := some 10, oldEnv := [], osEnv := [] }
        true false 13 =
      { timer := some 15, lastEvent := some 13, oldEnv := [], osEnv := [] } := by
  constructor
  · exact (gap_filter 2 _ true false 11 10 rfl).1 (by decide)
  · exact (gap_filter 2 _ true false 13 10 rfl).2 (by decide) (by decide) rfl

/-! ## Reload failure keeps the baseline -/

/-- C4: a failed reload only logs and leaves the diff baseline
untouched: whether the callback's `load()` fails or the follow-up read
of `".env"` fails, the stored `oldEnv` mapping is returned unchanged, so
a later reload still diffs against the pre-failure mapping; firing the
timer in the loop likewise keeps the baseline when the read fails. -/
theorem reload_failure_keeps_baseline :
    (∀ (fs : FS) (fp : String) (oldEnv : EnvMap) (osEnv : OsEnv),
      fs fp = none →
        reloadAction fs fp oldEnv osEnv = (.loadFailed, oldEnv, osEnv)) ∧
    (∀ (fs : FS) (fp : String) (oldEnv : EnvMap) (osEnv : OsEnv),
      (fs fp).isSome → fs ".env" = none →
        (reloadAction fs fp oldEnv osEnv).1 = .snapshotReadFailed ∧
        (reloadAction fs fp oldEnv osEnv).2.1 = oldEnv) ∧
    (∀ (fs : FS) (fp : String) (st : LoopState),
      fs fp = none → (fireTimer fs fp st).oldEnv = st.oldEnv) := by
  refine ⟨?_, ?_, ?_⟩
  · intro fs fp oldEnv osEnv h
    unfold reloadAction godotenvLoad
    rw [h]
  · intro fs fp oldEnv osEnv hs h2
    obtain ⟨content, hc⟩ := Option.isSome_iff_exists.mp hs
    unfold reloadAction godotenvLoad
    rw [hc, h2]
    exact ⟨rfl, rfl⟩
  · intro fs fp st h
    unfold fireTimer
    cases ht : st.timer with
    | none => rfl
    | some d =>
      unfold reloadAction godotenvLoad
      rw [h]

/-- Witness for `reload_failure_keeps_baseline`: failing reloads against
concrete filesystems keep the concrete baseline. -/
theorem reload_failure_keeps_baseline_witness :
    reloadAction fsEmpty ".env" [(goStr "A", goStr "1")] [] =
      (.loadFailed, [(goStr "A", goStr "1")], []) ∧
    (reloadAction fsOther "conf" [(goStr "A", goStr "1")] []).2.1 =
      [(goStr "A", goStr "1")] := by
  constructor
  · exact reload_failure_keeps_baseline.1 fsEmpty ".env" [(goStr "A", goStr "1")] [] rfl
  · exact (reload_failure_keeps_baseline.2.1 fsOther "conf"
      [(goStr "A", goStr "1")] [] (by decide) (by decide)).2

/-! ## Termination and the pending timer -/

/-- C6 counterexample: an accepted write arms the settle timer; the
shutdown signal then terminates the loop and closes the watcher, but the
pending timer is left armed — it is not canceled as part of
termination. -/
theorem shutdown_leaves_timer_armed_cex :
    (runWatch fsANew ".env" 2000
        (initLoopState (parseEnvFile (goStr "A=new")) [])
        [.event true false 5000, .closeSignal]).terminated = true ∧
    (runWatch fsANew ".env" 2000
        (initLoopState (parseEnvFile (goStr "A=new")) [])
        [.event true false 5000, .closeSignal]).watcherClosed = true ∧
    (runWatch fsANew ".env" 2000
        (initLoopState (parseEnvFile (goStr "A=new")) [])
        [.event true false 5000, .closeSignal]).state.timer = some 7000 ∧
    (some 7000 : Option Nat) ≠ none := by
  exact ⟨rfl, rfl, rfl, by decide⟩

/-- C6 (amended): when shutdown is signalled (or a watcher channel
closes), the loop terminates and the watcher's OS-level resources are
released, but a pending settle timer is NOT canceled: termination
returns the loop state — any armed timer included — exactly as it was,
so the abandoned timer's reload callback can still fire after the loop
has terminated and released the watcher. -/
theorem shutdown_releases_watcher_but_abandons_timer
    (fs : FS) (fp : String) (delay : Nat) (st : LoopState)
    (inputs : List WatchInput) (h : ∀ i ∈ inputs, isTerminator i = false) :
    runWatch fs fp delay st (inputs ++ [.closeSignal]) =
      ⟨(runWatch fs fp delay st inputs).state, true, true⟩ := by
  induction inputs generalizing st with
  | nil => rfl
  | cons i rest ih =>
    have hrest : ∀ j ∈ rest, isTerminator j = false :=
      fun j hj => h j (List.mem_cons_of_mem _ hj)
    cases i with
    | event w c now =>
      show runWatch fs fp delay (stepEvent delay st w c now) (rest ++ [.closeSignal]) = _
      rw [ih (stepEvent delay st w c now) hrest]
      rfl
    | errMsg =>
      show runWatch fs fp delay st (rest ++ [.closeSignal]) = _
      rw [ih st hrest]
      rfl
    | timerFire =>
      show runWatch fs fp delay (fireTimer fs fp st) (rest ++ [.closeSignal]) = _
      rw [ih (fireTimer fs fp st) hrest]
      rfl
    | eventsClosed =>
      have := h _ (List.mem_cons_self _ _)
      simp [isTerminator] at this
    | errorsClosed =>
      have := h _ (List.mem_cons_self _ _)
      simp [isTerminator] at this
    | closeSignal =>
      have := h _ (List.mem_cons_self _ _)
      simp [isTerminator] at this

/-- Witness for `shutdown_releases_watcher_but_abandons_timer` on a
concrete trace with an armed timer. -/
theorem shutdown_abandons_timer_witness :
    runWatch fsANew ".env" 2000 (initLoopState [] [])
        [.event true false 5000, .closeSignal] =
      ⟨(runWatch fsANew ".env" 2000 (initLoopState [] [])
          [.event true false 5000]).state, true, true⟩ :=
  shutdown_releases_watcher_but_abandons_timer fsANew ".env" 2000
    (initLoopState [] []) [.event true false 5000] (by decide)

/-! ## The hard-coded `".env"` path in the watch loop -/

/-- C9: the watch loop reads both snapshots from the hard-coded relative
path `".env"`, not from the configured `filePath`: for every configured
path the loop's baseline is the parse of `fs ".env"`, a successful
reload diffs against and installs the parse of `fs ".env"`, and when
`".env"` cannot be read at loop start the loop returns immediately — hot
reload silently stops, with nothing surfaced beyond the log. -/
theorem watch_reads_hardcoded_dotenv :
    (∀ (fs : FS) (fp : String) (delay : Nat) (env : OsEnv)
        (inputs : List WatchInput) (content : Str), fs ".env" = some content →
      watchEvents fs fp delay env inputs =
        some (runWatch fs fp delay
          (initLoopState (parseEnvFile content) env) inputs)) ∧
    (∀ (fs : FS) (fp : String) (delay : Nat) (env : OsEnv)
        (inputs : List WatchInput), fs ".env" = none →
      watchEvents fs fp delay env inputs = none) ∧
    (∀ (fs : FS) (fp : String) (oldEnv : EnvMap) (osEnv : OsEnv)
        (content2 : Str),
      (godotenvLoad fs fp osEnv).1 = none → fs ".env" = some content2 →
      reloadAction fs fp oldEnv osEnv =
        (.reloaded (diffEvents oldEnv (parseEnvFile content2)),
          parseEnvFile content2, (godotenvLoad fs fp osEnv).2)) := by
  refine ⟨?_, ?_, ?_⟩
  · intro fs fp delay env inputs content h
    unfold watchEvents
    rw [h]
  · intro fs fp delay env inputs h
    unfold watchEvents
    rw [h]
  · intro fs fp oldEnv osEnv content2 hload hsnap
    unfold reloadAction
    rcases hg : godotenvLoad fs fp osEnv with ⟨r1, env2⟩
    rw [hg] at hload
    have hr1 : r1 = none := hload
    subst hr1
    rw [hsnap]

/-- Witness for `watch_reads_hardcoded_dotenv`: with a configured path
`"custom.conf"`, the loop baseline still comes from `".env"`, and a
missing `".env"` stops the loop immediately. -/
theorem watch_reads_hardcoded_dotenv_witness :
    watchEvents fsANew "custom.conf" 2000 [] [] =
      some (runWatch fsANew "custom.conf" 2000
        (initLoopState (parseEnvFile (goStr "A=new")) []) []) ∧
    watchEvents fsEmpty "custom.conf" 2000 [] [] = none :=
  ⟨watch_reads_hardcoded_dotenv.1 fsANew "custom.conf" 2000 [] []
      (goStr "A=new") (by decide),
   watch_reads_hardcoded_dotenv.2.1 fsEmpty "custom.conf" 2000 [] [] rfl⟩
